import Mathlib

/-!
Verification development for the CADES core (crypto anomaly detection engine):
a shallow embedding of `metric_calculator.py`, `blockchain_listener.py` and
`whale_tracker.py`, with theorems settling the specification claims about them.

Numbers (Python floats) are modelled as rationals; Python dicts of numeric
payloads are modelled as insertion-ordered association lists.
-/

/-- Python `Dict[str, float]` payloads, as insertion-ordered association lists. -/
abbrev StrMap : Type := List (String × ℚ)

/-- Python `d[k]` / `k in d` membership-respecting lookup (first binding wins). -/
def dictGet {α : Type} : List (String × α) → String → Option α
  | [], _ => none
  | (k, v) :: rest, key => if k = key then some v else dictGet rest key

/-- Python `d.get(k, 0)`. -/
def mapGetD (m : StrMap) (key : String) : ℚ := (dictGet m key).getD 0

/-- Python `list(d.values())`. -/
def mapValues (m : StrMap) : List ℚ := m.map Prod.snd

/-- Python `k in d`. -/
def dictContains {α : Type} (d : List (String × α)) (k : String) : Bool :=
  d.any (fun kv => kv.1 = k)

/-- Python `d[k] = v`: overwrite in place when the key exists (keeping its
position), append otherwise (dicts preserve insertion order). -/
def dictSet {α : Type} (d : List (String × α)) (k : String) (v : α) : List (String × α) :=
  if dictContains d k then d.map (fun kv => if kv.1 = k then (k, v) else kv)
  else d ++ [(k, v)]

/-- `np.mean` on a list of floats. The empty list (where numpy yields NaN) is
mapped to 0 by rational division; no claim is settled on an empty mean. -/
def mean (xs : List ℚ) : ℚ := xs.sum / xs.length

/-- The calculator's category weight configuration, `self.metric_weights`
(keys chain / sentiment / market). -/
structure MetricWeights where
  chain : ℚ
  sentiment : ℚ
  market : ℚ
  deriving DecidableEq

/-- `MetricCalculator._calculate_chain_metrics` (metric_calculator.py, lines 101-128):
saturating scaling of transaction volume (cap 1e6), whale activity and
liquidity (cap 5e5). -/
def calculate_chain_metrics (chain_data : StrMap) : StrMap :=
  [ ("transaction_volume", min 1 (mapGetD chain_data "transaction_volume" / 1000000)),
    ("whale_activity", min 1 (mapGetD chain_data "whale_activity")),
    ("liquidity_score", min 1 (mapGetD chain_data "liquidity" / 500000)) ]

/-- `MetricCalculator._calculate_sentiment_metrics` (metric_calculator.py, lines 130-151):
sentiment score and change pass through unscaled; social volume is capped at 1000. -/
def calculate_sentiment_metrics (sentiment_data : StrMap) : StrMap :=
  [ ("sentiment_score", mapGetD sentiment_data "sentiment_score"),
    ("social_volume", min 1 (mapGetD sentiment_data "social_volume" / 1000)),
    ("sentiment_change", mapGetD sentiment_data "sentiment_change") ]

/-- `MetricCalculator._calculate_market_metrics` (metric_calculator.py, lines 153-177). -/
def calculate_market_metrics (market_data : StrMap) : StrMap :=
  [ ("volatility", min 1 (mapGetD market_data "volatility")),
    ("price_momentum", mapGetD market_data "price_momentum"),
    ("volume_profile", min 1 (mapGetD market_data "volume_profile")) ]

/-- `MetricCalculator._calculate_composite_score` (metric_calculator.py, lines 179-202):
the weighted sum, over the keys chain, sentiment, market in insertion order, of
`np.mean(list(metrics.values())) * self.metric_weights[key]`. -/
def calculate_composite_score (w : MetricWeights)
    (chain_metrics sentiment_metrics market_metrics : StrMap) : ℚ :=
  mean (mapValues chain_metrics) * w.chain
    + mean (mapValues sentiment_metrics) * w.sentiment
    + mean (mapValues market_metrics) * w.market

/-- `MetricCalculator._calculate_confidence` (metric_calculator.py, lines 204-232):
collects, in order, `min(1, data_points/100)` when `chain_data.get('data_points', 0) > 0`,
then `sentiment_data['confidence']` when that key is present, then
`market_data['data_quality']` when present; the result is the mean of the
collected values, or 0.0 when none were collected. -/
def calculate_confidence (chain_data sentiment_data market_data : StrMap) : ℚ :=
  let confidences : List ℚ :=
    (if 0 < mapGetD chain_data "data_points"
      then [min 1 (mapGetD chain_data "data_points" / 100)] else [])
    ++ (match dictGet sentiment_data "confidence" with
        | some c => [c]
        | none => [])
    ++ (match dictGet market_data "data_quality" with
        | some q => [q]
        | none => [])
  if confidences = [] then 0 else mean confidences

/-- The `AggregatedMetrics` dataclass (metric_calculator.py, lines 23-32);
`datetime.now()` timestamps are modelled as abstract naturals. -/
structure AggregatedMetrics where
  token_address : String
  timestamp : Nat
  chain_metrics : StrMap
  sentiment_metrics : StrMap
  market_metrics : StrMap
  composite_score : ℚ
  confidence : ℚ
  deriving DecidableEq

/-- `MetricCalculator._update_history` (metric_calculator.py, lines 234-249):
append, then keep only the last 1000 entries (`history[-1000:]`) once the
length exceeds 1000. -/
def update_history (history : List AggregatedMetrics) (metrics : AggregatedMetrics) :
    List AggregatedMetrics :=
  let h := history ++ [metrics]
  if 1000 < h.length then h.drop (h.length - 1000) else h

/-- The mutable state of a `MetricCalculator`: `update_interval`,
`metric_weights`, and `metric_history` (a `defaultdict(list)`, modelled as a
total function with default `[]`). -/
structure MetricCalculatorState where
  update_interval : Nat
  metric_weights : MetricWeights
  metric_history : String → List AggregatedMetrics

/-- `MetricCalculator.calculate_metrics` (metric_calculator.py, lines 53-99):
computes the three category metric maps, the composite score and confidence,
builds the `AggregatedMetrics`, appends it to the token's history and returns
it.  `datetime.now()` is the `now` parameter. -/
def calculate_metrics (st : MetricCalculatorState) (token_address : String) (now : Nat)
    (chain_data sentiment_data market_data : StrMap) :
    AggregatedMetrics × MetricCalculatorState :=
  let chain_metrics := calculate_chain_metrics chain_data
  let sentiment_metrics := calculate_sentiment_metrics sentiment_data
  let market_metrics := calculate_market_metrics market_data
  let composite_score :=
    calculate_composite_score st.metric_weights chain_metrics sentiment_metrics market_metrics
  let confidence := calculate_confidence chain_data sentiment_data market_data
  let metrics : AggregatedMetrics :=
    ⟨token_address, now, chain_metrics, sentiment_metrics, market_metrics,
      composite_score, confidence⟩
  (metrics,
    ⟨st.update_interval, st.metric_weights,
      fun t => if t = token_address then update_history (st.metric_history t) metrics
               else st.metric_history t⟩)

/-- `SolanaBlockchainListener._failover_to_backup` (blockchain_listener.py, lines
105-122), the scan over `enumerate(self.rpc_urls + self.backup_rpcs)` by index.
`probe idx` is the outcome, within this call, of constructing an `AsyncClient`
for endpoint `idx` and running `_verify_connection` on it: a constructor
failure and a failed verification both behave as `false` (both are caught and
the scan continues).  Returns the list of indices actually probed, in order,
together with the new `current_rpc_index` on success; `none` models reaching
the end of the scan and raising `ConnectionError("All RPC endpoints are
unavailable")`. -/
def failoverScan : List Nat → Nat → (Nat → Bool) → List Nat × Option Nat
  | [], _, _ => ([], none)
  | idx :: rest, cur, probe =>
    if idx = cur then failoverScan rest cur probe
    else if probe idx then ([idx], some idx)
    else
      let r := failoverScan rest cur probe
      (idx :: r.1, r.2)

/-- `_failover_to_backup` on a concrete pool: primaries followed by backups,
scanned by position. -/
def failover_to_backup (rpc_urls backup_rpcs : List String) (current_rpc_index : Nat)
    (probe : Nat → Bool) : List Nat × Option Nat :=
  failoverScan (List.range (rpc_urls ++ backup_rpcs).length) current_rpc_index probe

/-- Observable events of the monitoring loop of `start_monitoring`
(blockchain_listener.py, lines 195-220). -/
inductive MonEvent where
  | subscribeTo (program : String)
  | receive
  | processTx
  | failover
  deriving DecidableEq

/-- Outcome of one `await self.client.receive_data()` in the monitoring loop:
the call may return a usable response (`ok`, the branch with a `result` key),
return an unusable one (`noData`), or raise (`err`). -/
inductive RecvOutcome where
  | ok
  | noData
  | err
  deriving DecidableEq

/-- The body of the `while True` loop of `start_monitoring` (blockchain_listener.py,
lines 206-216), as the event trace it produces.  Each element of `steps` gives
the outcome of that iteration's `receive_data` together with the probe oracle
`_failover_to_backup` would see if it runs in that iteration.  On a receive
error the loop logs and calls `_failover_to_backup`; if that raises
`ConnectionError` (all endpoints unavailable) the exception escapes the inner
handler and the loop — the returned flag `true` records this abnormal
termination.  The loop performs no re-subscription after a failover. -/
def monitor_loop (nEndpoints : Nat) : Nat → List (RecvOutcome × (Nat → Bool)) →
    List MonEvent × Bool
  | _, [] => ([], false)
  | cur, (o, probe) :: rest =>
    match o with
    | RecvOutcome.ok =>
      let r := monitor_loop nEndpoints cur rest
      (MonEvent.receive :: MonEvent.processTx :: r.1, r.2)
    | RecvOutcome.noData =>
      let r := monitor_loop nEndpoints cur rest
      (MonEvent.receive :: r.1, r.2)
    | RecvOutcome.err =>
      match (failoverScan (List.range nEndpoints) cur probe).2 with
      | some idx =>
        let r := monitor_loop nEndpoints idx rest
        (MonEvent.receive :: MonEvent.failover :: r.1, r.2)
      | none => ([MonEvent.receive, MonEvent.failover], true)

/-- `SolanaBlockchainListener.start_monitoring` (blockchain_listener.py, lines
195-220), from the point where the connection is initialized: subscribe to
every watched program once, then run the monitoring loop.  Returns the event
trace and whether the run ended by a propagating `ConnectionError`. -/
def start_monitoring (nEndpoints : Nat) (watched_programs : List String)
    (current_rpc_index : Nat) (steps : List (RecvOutcome × (Nat → Bool))) :
    List MonEvent × Bool :=
  let r := monitor_loop nEndpoints current_rpc_index steps
  (watched_programs.map MonEvent.subscribeTo ++ r.1, r.2)

/-- Whether an event is a subscription event. -/
def isSubscribeEvent : MonEvent → Bool
  | MonEvent.subscribeTo _ => true
  | _ => false

/-- The re-subscription property claimed of the monitoring loop: a receive
event never follows a failover event without intervening subscription events
for every watched program. -/
def resubscribe_property (trace : List MonEvent) (programs : List String) : Prop :=
  ∀ i j, i < j → j < trace.length →
    trace.getD i MonEvent.receive = MonEvent.failover →
    trace.getD j MonEvent.failover = MonEvent.receive →
    ∀ p ∈ programs, ∃ k, i < k ∧ k < j ∧ trace.getD k MonEvent.receive = MonEvent.subscribeTo p

/-- The adjacency relation expected of the loop trace after the correction: an
event directly following a failover can only be a receive (the loop goes
straight back to `receive_data`; it never re-subscribes). -/
def failRcv (a b : MonEvent) : Prop :=
  a = MonEvent.failover → b = MonEvent.receive

/-- The callback fan-out of `SolanaBlockchainListener.process_transaction`
(blockchain_listener.py, lines 187-193): `for callback in
self.transaction_callbacks: await callback(tx_info)` runs inside the method's
single `try`.  `raises` records, per registered callback in order, whether the
call raises; the result is the list of (0-based) callback indices actually
invoked — an exception aborts the loop, so the callbacks after the raising one
are never invoked. -/
def dispatch_callbacks : Nat → List Bool → List Nat
  | _, [] => []
  | i, raises :: rest => i :: (if raises then [] else dispatch_callbacks (i + 1) rest)

/-- `SolanaBlockchainListener.process_transaction` (blockchain_listener.py, lines
154-193).  Decoding of the base64 payload is abstracted to whether it succeeds
(`decode_ok`); callbacks are abstracted to whether each raises.  Returns the
indices of callbacks invoked, the increment to `transactions_processed`
(applied before the callback loop when decoding succeeded) and the increment
to `errors_encountered` (the shared `except` handler, hit by a decode failure
or by the first raising callback). -/
def process_transaction (decode_ok : Bool) (callback_raises : List Bool) :
    List Nat × Nat × Nat :=
  if decode_ok then
    (dispatch_callbacks 0 callback_raises, 1,
      if callback_raises.any (fun b => b) then 1 else 0)
  else ([], 0, 1)

/-- The `WhaleProfile` dataclass (whale_tracker.py, lines 37-48); timestamps are
abstract naturals and the associate set is a list. -/
structure WhaleProfile where
  wallet_address : String
  total_holdings_usd : ℚ
  tokens_held : StrMap
  average_transaction_size : ℚ
  activity_score : ℚ
  influence_rating : ℚ
  last_active : Nat
  known_associates : List String
  movement_pattern : String
  deriving DecidableEq

/-- The mutable state of a `WhaleTracker`: the configured whale threshold and
the insertion-ordered `whale_profiles` dict. -/
structure WhaleTrackerState where
  min_whale_threshold_usd : ℚ
  whale_profiles : List (String × WhaleProfile)
  deriving DecidableEq

/-- `WhaleTracker.track_wallet` (whale_tracker.py, lines 72-97).  The holdings
value produced by `_calculate_holdings` is an external chain-state lookup and
is passed in as `holdings`.  `_create_whale_profile` (lines 190-205) has a stub
body; modelled from the spec: a `WhaleProfile` is created on first
qualification, supplied here as the oracle `profile`.  Below the threshold the
method returns `None` and leaves the state unchanged; otherwise it stores the
profile under the wallet address and returns it. -/
def track_wallet (st : WhaleTrackerState) (wallet_address : String) (holdings : ℚ)
    (profile : WhaleProfile) : Option WhaleProfile × WhaleTrackerState :=
  if holdings < st.min_whale_threshold_usd then (none, st)
  else (some profile,
    ⟨st.min_whale_threshold_usd, dictSet st.whale_profiles wallet_address profile⟩)

/-- The filter of `WhaleTracker.get_active_whales` (whale_tracker.py, lines
145-153): keep profiles with `activity_score >= min_activity_score` and, when a
token filter is given (`if token_address:` — the empty string is falsy), with
`token_address in profile.tokens_held`. -/
def activeWhaleFilter (token_address : Option String) (min_activity_score : ℚ)
    (p : WhaleProfile) : Bool :=
  min_activity_score ≤ p.activity_score &&
    (match token_address with
     | some t => if t = "" then true else dictContains p.tokens_held t
     | none => true)

/-- Descending comparison on `influence_rating`: the sort order of
`sorted(active_whales, key=lambda x: x.influence_rating, reverse=True)`. -/
def byInfluenceDesc (a b : WhaleProfile) : Prop :=
  b.influence_rating ≤ a.influence_rating

instance : DecidableRel byInfluenceDesc :=
  fun a b => inferInstanceAs (Decidable (b.influence_rating ≤ a.influence_rating))

instance : IsTotal WhaleProfile byInfluenceDesc :=
  ⟨fun a b => le_total b.influence_rating a.influence_rating⟩

instance : IsTrans WhaleProfile byInfluenceDesc :=
  ⟨fun _ _ _ h1 h2 => le_trans h2 h1⟩

/-- `WhaleTracker.get_active_whales` (whale_tracker.py, lines 131-159): filter
`whale_profiles.values()` (insertion order) and sort by `influence_rating`
descending.  Python's `sorted` is a stable sort; with ties inserted behind
equal keys, insertion sort over `byInfluenceDesc` is exactly that stable
descending sort. -/
def get_active_whales (st : WhaleTrackerState) (token_address : Option String)
    (min_activity_score : ℚ) : List WhaleProfile :=
  List.insertionSort byInfluenceDesc
    ((st.whale_profiles.map Prod.snd).filter (activeWhaleFilter token_address min_activity_score))

/-- A concrete `AggregatedMetrics` value, used as witness input. -/
def sampleMetrics (i : Nat) : AggregatedMetrics :=
  ⟨"token", i, [], [], [], 0, 0⟩

/-- 1050 concrete history entries, used as witness input. -/
def manyEntries : List AggregatedMetrics :=
  (List.range 1050).map sampleMetrics

/-- A concrete whale profile holding a zero position in token `T`. -/
def profileZeroT : WhaleProfile :=
  ⟨"w1", 200000, [("T", 0)], 0, 1, 3, 0, [], "accumulate"⟩

/-- A concrete tracker state containing only `profileZeroT`. -/
def trackerZeroT : WhaleTrackerState :=
  ⟨100000, [("w1", profileZeroT)]⟩

/-- A concrete whale profile used as the profile-creation oracle in witnesses. -/
def sampleProfile : WhaleProfile :=
  ⟨"w", 150000, [("T", 5)], 1000, 1, 2, 0, [], "accumulate"⟩

/-- A probe oracle under which only endpoint 1 is healthy. -/
def probeOnlyOne : Nat → Bool := fun i => i == 1

/-- Two loop iterations: a receive error whose failover lands on endpoint 1,
then a receive that yields no usable data. -/
def stepsC9 : List (RecvOutcome × (Nat → Bool)) :=
  [(RecvOutcome.err, probeOnlyOne), (RecvOutcome.noData, fun _ => false)]

example : calculate_confidence [] [] [] = 0 := by
  norm_num [calculate_confidence, mapGetD, dictGet]

example : calculate_confidence [("data_points", 150)] [] [] = 1 := by
  simp +decide [calculate_confidence, mapGetD, dictGet, mean, min_def]
  norm_num

example :
    calculate_composite_score ⟨2/5, 3/10, 3/10⟩
      (calculate_chain_metrics
        [("transaction_volume", 500000), ("whale_activity", 7/10), ("liquidity", 300000)])
      (calculate_sentiment_metrics
        [("sentiment_score", 4/5), ("social_volume", 500), ("sentiment_change", 1/5)])
      (calculate_market_metrics
        [("volatility", 2/5), ("price_momentum", 3/5), ("volume_profile", 7/10)]) =
      2/5 * (3/5) + 3/10 * (1/2) + 3/10 * (17/30) := by
  simp +decide [calculate_composite_score, calculate_chain_metrics, calculate_sentiment_metrics,
    calculate_market_metrics, mean, mapValues, mapGetD, dictGet, min_def]
  norm_num

theorem mean_singleton (a : ℚ) : mean [a] = a := by
  simp [mean]

theorem mean_nonneg_le_one (xs : List ℚ) (hne : xs ≠ [])
    (h : ∀ v ∈ xs, 0 ≤ v ∧ v ≤ 1) : 0 ≤ mean xs ∧ mean xs ≤ 1 := by
  have hlen : 0 < (xs.length : ℚ) := by
    exact_mod_cast List.length_pos.2 hne
  have hsum0 : 0 ≤ xs.sum := List.sum_nonneg (fun v hv => (h v hv).1)
  have hsum1 : xs.sum ≤ (xs.length : ℚ) := by
    calc xs.sum ≤ xs.length • (1 : ℚ) := List.sum_le_card_nsmul xs 1 (fun v hv => (h v hv).2)
    _ = (xs.length : ℚ) := by simp
  exact ⟨div_nonneg hsum0 (le_of_lt hlen), (div_le_one hlen).2 hsum1⟩

/-- C7: `MetricCalculator._calculate_confidence` returns exactly 0 when no
confidence indicator is present (chain `data_points` absent or not positive,
sentiment `confidence` key absent, market `data_quality` key absent), and
returns exactly the single indicator's value when exactly one is present; the
chain indicator, when present, equals `min(1, data_points / 100)`. -/
theorem C7_confidence_indicators (chain_data sentiment_data market_data : StrMap) :
    (mapGetD chain_data "data_points" ≤ 0 →
      dictGet sentiment_data "confidence" = none →
      dictGet market_data "data_quality" = none →
      calculate_confidence chain_data sentiment_data market_data = 0)
    ∧ (∀ dp : ℚ, dictGet chain_data "data_points" = some dp → 0 < dp →
        dictGet sentiment_data "confidence" = none →
        dictGet market_data "data_quality" = none →
        calculate_confidence chain_data sentiment_data market_data = min 1 (dp / 100))
    ∧ (∀ x : ℚ, mapGetD chain_data "data_points" ≤ 0 →
        dictGet sentiment_data "confidence" = some x →
        dictGet market_data "data_quality" = none →
        calculate_confidence chain_data sentiment_data market_data = x)
    ∧ (∀ x : ℚ, mapGetD chain_data "data_points" ≤ 0 →
        dictGet sentiment_data "confidence" = none →
        dictGet market_data "data_quality" = some x →
        calculate_confidence chain_data sentiment_data market_data = x) := by
  refine ⟨fun h1 h2 h3 => ?_, fun dp hdp hpos h2 h3 => ?_, fun x h1 h2 h3 => ?_,
    fun x h1 h2 h3 => ?_⟩
  · simp [calculate_confidence, h2, h3, not_lt.2 h1]
  · have hget : mapGetD chain_data "data_points" = dp := by simp [mapGetD, hdp]
    simp [calculate_confidence, h2, h3, hget, hpos, mean_singleton]
  · simp [calculate_confidence, h2, h3, not_lt.2 h1, mean_singleton]
  · simp [calculate_confidence, h2, h3, not_lt.2 h1, mean_singleton]

theorem C7_confidence_indicators_witness :
    calculate_confidence [] [] [] = 0
    ∧ calculate_confidence [("data_points", 150)] [] [] = min 1 (150 / 100)
    ∧ calculate_confidence [] [("confidence", 9/10)] [] = 9/10 := by
  refine ⟨(C7_confidence_indicators [] [] []).1 (by norm_num [mapGetD, dictGet]) rfl rfl,
    (C7_confidence_indicators [("data_points", 150)] [] []).2.1 150 (by simp [dictGet])
      (by norm_num) rfl rfl,
    (C7_confidence_indicators [] [("confidence", 9/10)] []).2.2.1 (9/10)
      (by norm_num [mapGetD, dictGet]) (by simp [dictGet]) rfl⟩

theorem update_history_closed_form (l : List AggregatedMetrics) :
    List.foldl update_history [] l = l.drop (l.length - 1000) := by
  induction l using List.reverseRecOn with
  | nil => simp
  | append_singleton l a ih =>
    rw [List.foldl_append, List.foldl_cons, List.foldl_nil, ih]
    unfold update_history
    by_cases hlen : l.length < 1000
    · have h0 : l.length - 1000 = 0 := by omega
      have hc : ¬ 1000 < (List.drop (l.length - 1000) l ++ [a]).length := by
        rw [h0]; simp; omega
      rw [if_neg hc, h0]
      have h1 : (l ++ [a]).length - 1000 = 0 := by simp; omega
      rw [h1]
      simp
    · push_neg at hlen
      have hdlen : (List.drop (l.length - 1000) l).length = 1000 := by
        rw [List.length_drop]; omega
      have hcond : 1000 < (List.drop (l.length - 1000) l ++ [a]).length := by
        rw [List.length_append, hdlen]; simp
      rw [if_pos hcond]
      have harith : (List.drop (l.length - 1000) l ++ [a]).length - 1000 = 1 := by
        rw [List.length_append, hdlen]; simp
      rw [harith]
      rw [List.drop_append_of_le_length (by rw [hdlen]; omega)]
      rw [List.drop_drop]
      conv_rhs =>
        rw [List.drop_append_of_le_length
          (by simp only [List.length_append, List.length_singleton]; omega)]
      have hidx : l.length - 1000 + 1 = (l ++ [a]).length - 1000 := by
        simp only [List.length_append, List.length_singleton]; omega
      rw [hidx]

theorem foldl_update_history_length_le (l : List AggregatedMetrics) :
    (List.foldl update_history [] l).length ≤ 1000 := by
  rw [update_history_closed_form, List.length_drop]
  omega

/-- C4: appending n > 1000 `AggregatedMetrics` to a token's history through
`MetricCalculator._update_history` leaves exactly the most recent 1000 entries
in order, and after every single append the stored history never exceeds 1000
entries. -/
theorem C4_history_retention (entries : List AggregatedMetrics)
    (_h : 1000 < entries.length) :
    List.foldl update_history [] entries = entries.drop (entries.length - 1000)
    ∧ ∀ p : List AggregatedMetrics, p <+: entries →
        (List.foldl update_history [] p).length ≤ 1000 :=
  ⟨update_history_closed_form entries, fun p _ => foldl_update_history_length_le p⟩


theorem C4_history_retention_witness :
    1000 < manyEntries.length
    ∧ List.foldl update_history [] manyEntries
        = manyEntries.drop (manyEntries.length - 1000) := by
  have hlen : 1000 < manyEntries.length := by
    simp [manyEntries]
  exact ⟨hlen, (C4_history_retention manyEntries hlen).1⟩

/-- C10: a normally returning `MetricCalculator.calculate_metrics` call on token
t leaves every other token's history unchanged, changes t's history exactly by
appending the returned `AggregatedMetrics` (trimmed to the last 1000 entries),
and modifies no other field of the calculator state. -/
theorem C10_calculate_metrics_frame (st : MetricCalculatorState) (token : String)
    (now : Nat) (chain_data sentiment_data market_data : StrMap) :
    (∀ u, u ≠ token →
      (calculate_metrics st token now chain_data sentiment_data market_data).2.metric_history u
        = st.metric_history u)
    ∧ (calculate_metrics st token now chain_data sentiment_data market_data).2.metric_history
        token
      = update_history (st.metric_history token)
          (calculate_metrics st token now chain_data sentiment_data market_data).1
    ∧ (calculate_metrics st token now chain_data sentiment_data market_data).2.metric_weights
        = st.metric_weights
    ∧ (calculate_metrics st token now chain_data sentiment_data market_data).2.update_interval
        = st.update_interval := by
  refine ⟨fun u hu => ?_, ?_, rfl, rfl⟩
  · simp [calculate_metrics, hu]
  · simp [calculate_metrics]

theorem C10_calculate_metrics_frame_witness :
    ("u" : String) ≠ "t"
    ∧ (calculate_metrics ⟨60, ⟨2/5, 3/10, 3/10⟩, fun _ => []⟩ "t" 0 [] [] []).2.metric_history "u"
        = (⟨60, ⟨2/5, 3/10, 3/10⟩, fun _ => []⟩ : MetricCalculatorState).metric_history "u" := by
  have hne : ("u" : String) ≠ "t" := by decide
  exact ⟨hne,
    (C10_calculate_metrics_frame ⟨60, ⟨2/5, 3/10, 3/10⟩, fun _ => []⟩ "t" 0 [] [] []).1 "u" hne⟩

/-- C1 counterexample: a weight configuration summing to 1.0 but containing a
negative weight, together with non-empty metric maps whose values all lie in
[0,1], for which `_calculate_composite_score` returns 2 ∉ [0,1]. -/
theorem C1_counterexample :
    (2 : ℚ) + (-1/2) + (-1/2) = 1
    ∧ (∀ v ∈ mapValues [("a", (1 : ℚ))], 0 ≤ v ∧ v ≤ 1)
    ∧ (∀ v ∈ mapValues [("b", (0 : ℚ))], 0 ≤ v ∧ v ≤ 1)
    ∧ (∀ v ∈ mapValues [("c", (0 : ℚ))], 0 ≤ v ∧ v ≤ 1)
    ∧ calculate_composite_score ⟨2, -1/2, -1/2⟩ [("a", 1)] [("b", 0)] [("c", 0)] = 2
    ∧ ¬ ((2 : ℚ) ≤ 1) := by
  refine ⟨by norm_num, ?_, ?_, ?_, ?_, by norm_num⟩
  · simp [mapValues]
  · simp [mapValues]
  · simp [mapValues]
  · simp [calculate_composite_score, mean, mapValues]

/-- C1 (amended): for every weight configuration with nonnegative weights
summing to 1.0 and every triple of non-empty metric maps with values in [0,1],
the composite score computed by `_calculate_composite_score` lies in [0,1].
(The nonnegativity hypothesis is forced: see the counterexample.) -/
theorem C1_composite_score_bounded (w : MetricWeights) (cm sm mm : StrMap)
    (hwc : 0 ≤ w.chain) (hws : 0 ≤ w.sentiment) (hwm : 0 ≤ w.market)
    (hsum : w.chain + w.sentiment + w.market = 1)
    (hc : cm ≠ []) (hs : sm ≠ []) (hm : mm ≠ [])
    (hcv : ∀ v ∈ mapValues cm, 0 ≤ v ∧ v ≤ 1)
    (hsv : ∀ v ∈ mapValues sm, 0 ≤ v ∧ v ≤ 1)
    (hmv : ∀ v ∈ mapValues mm, 0 ≤ v ∧ v ≤ 1) :
    0 ≤ calculate_composite_score w cm sm mm
    ∧ calculate_composite_score w cm sm mm ≤ 1 := by
  have hne1 : mapValues cm ≠ [] := by
    simpa [mapValues] using hc
  have hne2 : mapValues sm ≠ [] := by
    simpa [mapValues] using hs
  have hne3 : mapValues mm ≠ [] := by
    simpa [mapValues] using hm
  obtain ⟨a0, a1⟩ := mean_nonneg_le_one _ hne1 hcv
  obtain ⟨b0, b1⟩ := mean_nonneg_le_one _ hne2 hsv
  obtain ⟨c0, c1⟩ := mean_nonneg_le_one _ hne3 hmv
  unfold calculate_composite_score
  constructor
  · have t1 : 0 ≤ mean (mapValues cm) * w.chain := mul_nonneg a0 hwc
    have t2 : 0 ≤ mean (mapValues sm) * w.sentiment := mul_nonneg b0 hws
    have t3 : 0 ≤ mean (mapValues mm) * w.market := mul_nonneg c0 hwm
    linarith
  · have t1 : mean (mapValues cm) * w.chain ≤ w.chain := mul_le_of_le_one_left hwc a1
    have t2 : mean (mapValues sm) * w.sentiment ≤ w.sentiment := mul_le_of_le_one_left hws b1
    have t3 : mean (mapValues mm) * w.market ≤ w.market := mul_le_of_le_one_left hwm c1
    linarith

theorem C1_composite_score_bounded_witness :
    0 ≤ calculate_composite_score ⟨2/5, 3/10, 3/10⟩ [("a", 1/2)] [("b", 1)] [("c", 0)]
    ∧ calculate_composite_score ⟨2/5, 3/10, 3/10⟩ [("a", 1/2)] [("b", 1)] [("c", 0)] ≤ 1 :=
  C1_composite_score_bounded ⟨2/5, 3/10, 3/10⟩ [("a", 1/2)] [("b", 1)] [("c", 0)]
    (by norm_num) (by norm_num) (by norm_num) (by norm_num)
    (by simp) (by simp) (by simp)
    (by simp [mapValues]; norm_num) (by simp [mapValues]) (by simp [mapValues])

/-- C5 counterexample: `_calculate_chain_metrics` only caps from above
(`min(1.0, ...)`), so a negative transaction volume yields a normalized value
of -2 ∉ [0,1]; and `_calculate_sentiment_metrics` passes `sentiment_score`
through unscaled, so an input of 2 yields 2 ∉ [-1,1]. -/
theorem C5_counterexample :
    dictGet (calculate_chain_metrics [("transaction_volume", -2000000)]) "transaction_volume"
      = some (-2)
    ∧ ¬ (0 ≤ (-2 : ℚ))
    ∧ dictGet (calculate_sentiment_metrics [("sentiment_score", 2)]) "sentiment_score" = some 2
    ∧ ¬ ((2 : ℚ) ≤ 1) := by
  refine ⟨?_, by norm_num, ?_, by norm_num⟩
  · simp +decide [calculate_chain_metrics, mapGetD, dictGet, min_def]
    norm_num
  · simp +decide [calculate_sentiment_metrics, mapGetD, dictGet]

theorem min_one_bounds (x : ℚ) (hx : 0 ≤ x) : 0 ≤ min 1 x ∧ min 1 x ≤ 1 :=
  ⟨le_min (by norm_num) hx, min_le_left _ _⟩

/-- C5 (amended): whenever the raw inputs of the saturating-scaled signals
(`transaction_volume`, `whale_activity`, `liquidity` → `liquidity_score`,
`social_volume`) are nonnegative and the momentum-type inputs
(`sentiment_score`, `sentiment_change`) lie in [-1,1], every value in the
normalized maps returned by `_calculate_chain_metrics` and
`_calculate_sentiment_metrics` lies in its declared bound: [0,1] for the
saturating-scaled signals and [-1,1] for the momentum signals.  (The input
restriction is forced: see the counterexample.) -/
theorem C5_normalized_bounds (chain_data sentiment_data : StrMap)
    (h1 : 0 ≤ mapGetD chain_data "transaction_volume")
    (h2 : 0 ≤ mapGetD chain_data "whale_activity")
    (h3 : 0 ≤ mapGetD chain_data "liquidity")
    (h4 : 0 ≤ mapGetD sentiment_data "social_volume")
    (h5 : -1 ≤ mapGetD sentiment_data "sentiment_score")
    (h6 : mapGetD sentiment_data "sentiment_score" ≤ 1)
    (h7 : -1 ≤ mapGetD sentiment_data "sentiment_change")
    (h8 : mapGetD sentiment_data "sentiment_change" ≤ 1) :
    (∀ v ∈ mapValues (calculate_chain_metrics chain_data), 0 ≤ v ∧ v ≤ 1)
    ∧ (0 ≤ mapGetD (calculate_sentiment_metrics sentiment_data) "social_volume"
        ∧ mapGetD (calculate_sentiment_metrics sentiment_data) "social_volume" ≤ 1)
    ∧ (-1 ≤ mapGetD (calculate_sentiment_metrics sentiment_data) "sentiment_score"
        ∧ mapGetD (calculate_sentiment_metrics sentiment_data) "sentiment_score" ≤ 1)
    ∧ (-1 ≤ mapGetD (calculate_sentiment_metrics sentiment_data) "sentiment_change"
        ∧ mapGetD (calculate_sentiment_metrics sentiment_data) "sentiment_change" ≤ 1) := by
  refine ⟨?_, ?_, ?_, ?_⟩
  · intro v hv
    simp [calculate_chain_metrics, mapValues] at hv
    rcases hv with h | h | h
    · exact h ▸ min_one_bounds _ (div_nonneg h1 (by norm_num))
    · exact h ▸ min_one_bounds _ h2
    · exact h ▸ min_one_bounds _ (div_nonneg h3 (by norm_num))
  · have hv : mapGetD (calculate_sentiment_metrics sentiment_data) "social_volume"
        = min 1 (mapGetD sentiment_data "social_volume" / 1000) := by
      simp +decide [calculate_sentiment_metrics, mapGetD, dictGet]
    rw [hv]
    exact min_one_bounds _ (div_nonneg h4 (by norm_num))
  · have hv : mapGetD (calculate_sentiment_metrics sentiment_data) "sentiment_score"
        = mapGetD sentiment_data "sentiment_score" := by
      simp +decide [calculate_sentiment_metrics, mapGetD, dictGet]
    rw [hv]
    exact ⟨h5, h6⟩
  · have hv : mapGetD (calculate_sentiment_metrics sentiment_data) "sentiment_change"
        = mapGetD sentiment_data "sentiment_change" := by
      simp +decide [calculate_sentiment_metrics, mapGetD, dictGet]
    rw [hv]
    exact ⟨h7, h8⟩

theorem C5_normalized_bounds_witness :
    (∀ v ∈ mapValues (calculate_chain_metrics
        [("transaction_volume", 500000), ("whale_activity", 7/10), ("liquidity", 300000)]),
      0 ≤ v ∧ v ≤ 1)
    ∧ (-1 ≤ mapGetD (calculate_sentiment_metrics
          [("sentiment_score", 4/5), ("social_volume", 500), ("sentiment_change", 1/5)])
            "sentiment_score"
        ∧ mapGetD (calculate_sentiment_metrics
          [("sentiment_score", 4/5), ("social_volume", 500), ("sentiment_change", 1/5)])
            "sentiment_score" ≤ 1) := by
  have h := C5_normalized_bounds
    [("transaction_volume", 500000), ("whale_activity", 7/10), ("liquidity", 300000)]
    [("sentiment_score", 4/5), ("social_volume", 500), ("sentiment_change", 1/5)]
    (by simp +decide [mapGetD, dictGet] <;> norm_num)
    (by simp +decide [mapGetD, dictGet] <;> norm_num)
    (by simp +decide [mapGetD, dictGet] <;> norm_num)
    (by simp +decide [mapGetD, dictGet] <;> norm_num)
    (by simp +decide [mapGetD, dictGet] <;> norm_num)
    (by simp +decide [mapGetD, dictGet] <;> norm_num)
    (by simp +decide [mapGetD, dictGet] <;> norm_num)
    (by simp +decide [mapGetD, dictGet] <;> norm_num)
  exact ⟨h.1, h.2.2.1⟩

theorem dictGet_map_overwrite {α : Type} (d : List (String × α)) (k : String) (v : α)
    (h : dictContains d k = true) :
    dictGet (d.map (fun kv => if kv.1 = k then (k, v) else kv)) k = some v := by
  induction d with
  | nil => simp [dictContains] at h
  | cons kv rest ih =>
    obtain ⟨k1, v1⟩ := kv
    by_cases hk : k1 = k
    · subst hk
      have hhead : (if (k1, v1).1 = k1 then (k1, v) else (k1, v1)) = (k1, v) := by
        simp
      rw [List.map_cons, hhead]
      simp [dictGet]
    · have hrest : dictContains rest k = true := by
        simpa [dictContains, hk] using h
      have hhead : (if (k1, v1).1 = k then (k, v) else (k1, v1)) = (k1, v1) := by
        simp [hk]
      rw [List.map_cons, hhead]
      simp [dictGet, hk, ih hrest]

theorem dictGet_append_single {α : Type} (d : List (String × α)) (k : String) (v : α)
    (h : dictContains d k = false) :
    dictGet (d ++ [(k, v)]) k = some v := by
  induction d with
  | nil => simp [dictGet]
  | cons kv rest ih =>
    obtain ⟨k1, v1⟩ := kv
    have hk : ¬ k1 = k := by
      intro he
      simp [dictContains, he] at h
    have hrest : dictContains rest k = false := by
      simpa [dictContains, hk] using h
    simp [dictGet, hk, ih hrest]

theorem dictGet_dictSet_self {α : Type} (d : List (String × α)) (k : String) (v : α) :
    dictGet (dictSet d k v) k = some v := by
  unfold dictSet
  by_cases h : dictContains d k
  · rw [if_pos h]
    exact dictGet_map_overwrite d k v h
  · rw [if_neg h]
    exact dictGet_append_single d k v (by simpa using h)

/-- C6: `WhaleTracker.track_wallet` returns a `WhaleProfile` (and records it in
`whale_profiles`) if and only if the computed USD holdings are at least
`min_whale_threshold_usd`; holdings exactly at the threshold qualify, holdings
below it yield `None` and leave the state unchanged. -/
theorem C6_track_wallet_threshold (st : WhaleTrackerState) (w : String)
    (holdings : ℚ) (profile : WhaleProfile) :
    ((track_wallet st w holdings profile).1.isSome
      ↔ st.min_whale_threshold_usd ≤ holdings)
    ∧ (st.min_whale_threshold_usd ≤ holdings →
        (track_wallet st w holdings profile).1 = some profile
        ∧ dictGet (track_wallet st w holdings profile).2.whale_profiles w = some profile)
    ∧ (holdings < st.min_whale_threshold_usd →
        (track_wallet st w holdings profile).1 = none
        ∧ (track_wallet st w holdings profile).2 = st) := by
  refine ⟨?_, fun hge => ?_, fun hlt => ?_⟩
  · unfold track_wallet
    by_cases hlt : holdings < st.min_whale_threshold_usd
    · rw [if_pos hlt]
      simp [not_le.2 hlt]
    · rw [if_neg hlt]
      simp [not_lt.1 hlt]
  · have hnlt : ¬ holdings < st.min_whale_threshold_usd := not_lt.2 hge
    unfold track_wallet
    rw [if_neg hnlt]
    exact ⟨rfl, dictGet_dictSet_self st.whale_profiles w profile⟩
  · unfold track_wallet
    rw [if_pos hlt]
    exact ⟨rfl, rfl⟩

theorem C6_track_wallet_threshold_witness :
    (track_wallet ⟨100000, []⟩ "w" 100000 sampleProfile).1 = some sampleProfile
    ∧ (track_wallet ⟨100000, []⟩ "w" (100000 - 1/100) sampleProfile).1 = none := by
  refine ⟨((C6_track_wallet_threshold ⟨100000, []⟩ "w" 100000 sampleProfile).2.1
      (by norm_num)).1,
    ((C6_track_wallet_threshold ⟨100000, []⟩ "w" (100000 - 1/100) sampleProfile).2.2
      (by norm_num)).1⟩

/-- C3: the code contradicts the claim — in `process_transaction`, the callback
loop runs inside the method's single `try`, so when the first of two registered
consumers raises, only consumer 0 is invoked and consumer 1 is never called;
the shared handler increments `errors_encountered` and dispatch stops.  The
claim (per the spec, the intended per-consumer isolation) fails at this input. -/
theorem C3_dispatch_aborts_on_first_failure :
    (process_transaction true [true, false]).1 = [0]
    ∧ 1 ∉ (process_transaction true [true, false]).1
    ∧ (process_transaction true [true, false]).2 = (1, 1) := by
  refine ⟨?_, ?_, ?_⟩ <;> decide

theorem failoverScan_probed_mem (l : List Nat) (cur : Nat) (probe : Nat → Bool) :
    ∀ i ∈ (failoverScan l cur probe).1, i ∈ l := by
  induction l with
  | nil => simp [failoverScan]
  | cons x rest ih =>
    intro i hi
    by_cases hx : x = cur
    · simp only [failoverScan, if_pos hx] at hi
      exact List.mem_cons_of_mem x (ih i hi)
    · by_cases hp : probe x
      · simp only [failoverScan, if_neg hx, if_pos hp, List.mem_singleton] at hi
        rw [hi]
        exact List.mem_cons_self x rest
      · simp only [failoverScan, if_neg hx, if_neg hp, List.mem_cons] at hi
        rcases hi with he | hi
        · rw [he]
          exact List.mem_cons_self x rest
        · exact List.mem_cons_of_mem x (ih i hi)

theorem failoverScan_skips_current (l : List Nat) (cur : Nat) (probe : Nat → Bool) :
    cur ∉ (failoverScan l cur probe).1 := by
  induction l with
  | nil => simp [failoverScan]
  | cons x rest ih =>
    by_cases hx : x = cur
    · simpa only [failoverScan, if_pos hx] using ih
    · by_cases hp : probe x
      · simp only [failoverScan, if_neg hx, if_pos hp, List.mem_singleton]
        exact fun he => hx he.symm
      · simp only [failoverScan, if_neg hx, if_neg hp, List.mem_cons]
        push_neg
        exact ⟨fun he => hx he.symm, ih⟩

theorem failoverScan_nodup (l : List Nat) (cur : Nat) (probe : Nat → Bool)
    (h : l.Nodup) : (failoverScan l cur probe).1.Nodup := by
  induction l with
  | nil => simp [failoverScan]
  | cons x rest ih =>
    obtain ⟨hx_not, hrest⟩ := List.nodup_cons.1 h
    by_cases hx : x = cur
    · simpa only [failoverScan, if_pos hx] using ih hrest
    · by_cases hp : probe x
      · simp only [failoverScan, if_neg hx, if_pos hp]
        exact List.nodup_singleton x
      · have heq : (failoverScan (x :: rest) cur probe).1
            = x :: (failoverScan rest cur probe).1 := by
          simp only [failoverScan, if_neg hx, if_neg hp]
        rw [heq]
        exact List.nodup_cons.2
          ⟨fun hmem => hx_not (failoverScan_probed_mem rest cur probe x hmem), ih hrest⟩

theorem failoverScan_none (l : List Nat) (cur : Nat) (probe : Nat → Bool)
    (h : ∀ i ∈ l, i ≠ cur → probe i = false) :
    (failoverScan l cur probe).2 = none := by
  induction l with
  | nil => simp [failoverScan]
  | cons x rest ih =>
    have hrest : ∀ i ∈ rest, i ≠ cur → probe i = false :=
      fun i hi => h i (List.mem_cons_of_mem x hi)
    by_cases hx : x = cur
    · simpa only [failoverScan, if_pos hx] using ih hrest
    · have hp : probe x = false := h x (List.mem_cons_self x rest) hx
      simp only [failoverScan, if_neg hx, hp, Bool.false_eq_true, if_false]
      exact ih hrest

theorem failoverScan_finds (l1 l2 : List Nat) (K cur : Nat) (probe : Nat → Bool)
    (h1 : ∀ i ∈ l1, i = cur ∨ probe i = false) (hK : K ≠ cur) (hp : probe K = true) :
    (failoverScan (l1 ++ K :: l2) cur probe).2 = some K := by
  induction l1 with
  | nil =>
    simp only [List.nil_append, failoverScan, if_neg hK, hp, if_true]
  | cons x rest ih =>
    have hrest : ∀ i ∈ rest, i = cur ∨ probe i = false :=
      fun i hi => h1 i (List.mem_cons_of_mem x hi)
    by_cases hxc : x = cur
    · simpa only [List.cons_append, failoverScan, if_pos hxc] using ih hrest
    · rcases h1 x (List.mem_cons_self x rest) with hx | hx
      · exact absurd hx hxc
      · simp only [List.cons_append, failoverScan, if_neg hxc, hx, Bool.false_eq_true, if_false]
        exact ih hrest

theorem range_split (K N : Nat) (h : K < N) :
    List.range N = List.range K ++ K :: List.range' (K + 1) (N - K - 1) := by
  obtain ⟨M, hM⟩ : ∃ M, N - K = M + 1 := ⟨N - K - 1, by omega⟩
  have hM1 : N - K - 1 = M := by omega
  rw [hM1, List.range_eq_range', show N = M + 1 + K from by omega,
    ← List.range'_append_1 0 K (M + 1), Nat.zero_add, List.range'_succ,
    ← List.range_eq_range']

/-- C2 counterexample: pool of two endpoints, the currently active index is 1;
the first endpoint (K = 1 endpoints, index 0) probes unhealthy and the 2nd (the
(K+1)-th, index 1) probes healthy, yet `_failover_to_backup` raises
`ConnectionError` (result `none`) instead of returning the healthy endpoint,
because the healthy endpoint is the currently active index, which the scan
skips. -/
theorem C2_counterexample :
    probeOnlyOne 0 = false ∧ probeOnlyOne 1 = true
    ∧ failover_to_backup ["a", "b"] [] 1 probeOnlyOne = ([0], none) := by
  refine ⟨rfl, rfl, ?_⟩
  decide

/-- C2 (amended): `_failover_to_backup` scans primaries followed by backups; if
the first K endpoints probe unhealthy and the (K+1)-th probes healthy, it
selects index K — provided index K is not the currently active index (which
the scan always skips: see the counterexample).  It probes each index at most
once per call and never probes the active index.  If every endpoint probes
unhealthy the call yields `none` (`ConnectionError("All RPC endpoints are
unavailable")`), and when that happens during the monitoring loop the error
escapes the loop iteration and aborts the run (propagates to the caller). -/
theorem C2_failover_selection (rpc_urls backup_rpcs : List String) (cur K : Nat)
    (probe : Nat → Bool) (rest : List (RecvOutcome × (Nat → Bool))) :
    (K < (rpc_urls ++ backup_rpcs).length →
      (∀ i, i < K → probe i = false) → probe K = true → cur ≠ K →
      (failover_to_backup rpc_urls backup_rpcs cur probe).2 = some K)
    ∧ ((∀ i, i < (rpc_urls ++ backup_rpcs).length → probe i = false) →
      (failover_to_backup rpc_urls backup_rpcs cur probe).2 = none)
    ∧ (failover_to_backup rpc_urls backup_rpcs cur probe).1.Nodup
    ∧ cur ∉ (failover_to_backup rpc_urls backup_rpcs cur probe).1
    ∧ ((failoverScan (List.range (rpc_urls ++ backup_rpcs).length) cur probe).2 = none →
      (monitor_loop (rpc_urls ++ backup_rpcs).length cur
        ((RecvOutcome.err, probe) :: rest)).2 = true) := by
  refine ⟨fun hKN hunh hK hne => ?_, fun hall => ?_, ?_, ?_, fun hnone => ?_⟩
  · unfold failover_to_backup
    rw [range_split K (rpc_urls ++ backup_rpcs).length hKN]
    exact failoverScan_finds (List.range K) _ K cur probe
      (fun i hi => Or.inr (hunh i (List.mem_range.1 hi))) (Ne.symm hne) hK
  · unfold failover_to_backup
    exact failoverScan_none _ cur probe (fun i hi _ => hall i (List.mem_range.1 hi))
  · exact failoverScan_nodup _ cur probe (List.nodup_range _)
  · exact failoverScan_skips_current _ cur probe
  · unfold monitor_loop
    rw [hnone]

theorem C2_failover_selection_witness :
    (failover_to_backup ["a", "b", "c"] [] 0 probeOnlyOne).2 = some 1
    ∧ (failover_to_backup ["a", "b", "c"] [] 0 (fun _ => false)).2 = none
    ∧ (monitor_loop 3 0 [(RecvOutcome.err, fun _ => false)]).2 = true := by
  refine ⟨?_, ?_, ?_⟩
  · exact (C2_failover_selection ["a", "b", "c"] [] 0 1 probeOnlyOne []).1
      (by decide)
      (by intro i hi
          have h0 : i = 0 := Nat.lt_one_iff.1 hi
          rw [h0]
          rfl)
      rfl (by decide)
  · exact (C2_failover_selection ["a", "b", "c"] [] 0 1 (fun _ => false) []).2.1
      (fun i _ => rfl)
  · exact (C2_failover_selection ["a", "b", "c"] [] 0 1 (fun _ => false)
      [(RecvOutcome.err, fun _ => false)]).2.2.2.2 (by decide)

theorem failRcv_of_ne (a b : MonEvent) (h : a ≠ MonEvent.failover) : failRcv a b :=
  fun habs => absurd habs h

theorem chain_failRcv_subscribes (ps : List String) :
    List.Chain' failRcv (ps.map MonEvent.subscribeTo) := by
  induction ps with
  | nil => simp
  | cons p rest ih =>
    rw [List.map_cons]
    exact List.chain'_cons'.2 ⟨fun y _ => failRcv_of_ne _ _ (by simp), ih⟩

theorem monitor_loop_no_subscribe (n : Nat) (steps : List (RecvOutcome × (Nat → Bool))) :
    ∀ cur p, MonEvent.subscribeTo p ∉ (monitor_loop n cur steps).1 := by
  induction steps with
  | nil =>
    intro cur p
    simp [monitor_loop]
  | cons s rest ih =>
    intro cur p
    obtain ⟨o, probe⟩ := s
    cases o with
    | ok =>
      simp only [monitor_loop, List.mem_cons]
      push_neg
      exact ⟨by simp, by simp, ih cur p⟩
    | noData =>
      simp only [monitor_loop, List.mem_cons]
      push_neg
      exact ⟨by simp, ih cur p⟩
    | err =>
      cases hfs : (failoverScan (List.range n) cur probe).2 with
      | some idx =>
        have heq : (monitor_loop n cur ((RecvOutcome.err, probe) :: rest)).1
            = MonEvent.receive :: MonEvent.failover :: (monitor_loop n idx rest).1 := by
          simp only [monitor_loop]
          rw [hfs]
        rw [heq]
        simp only [List.mem_cons]
        push_neg
        exact ⟨by simp, by simp, ih idx p⟩
      | none =>
        have heq : (monitor_loop n cur ((RecvOutcome.err, probe) :: rest)).1
            = [MonEvent.receive, MonEvent.failover] := by
          simp only [monitor_loop]
          rw [hfs]
        rw [heq]
        simp

theorem monitor_loop_head (n : Nat) (steps : List (RecvOutcome × (Nat → Bool))) (cur : Nat) :
    (monitor_loop n cur steps).1 = []
    ∨ ∃ t, (monitor_loop n cur steps).1 = MonEvent.receive :: t := by
  cases steps with
  | nil => exact Or.inl rfl
  | cons s rest =>
    obtain ⟨o, probe⟩ := s
    cases o with
    | ok => exact Or.inr ⟨_, rfl⟩
    | noData => exact Or.inr ⟨_, rfl⟩
    | err =>
      cases hfs : (failoverScan (List.range n) cur probe).2 with
      | some idx =>
        refine Or.inr ⟨MonEvent.failover :: (monitor_loop n idx rest).1, ?_⟩
        simp only [monitor_loop]
        rw [hfs]
      | none =>
        refine Or.inr ⟨[MonEvent.failover], ?_⟩
        simp only [monitor_loop]
        rw [hfs]

theorem monitor_loop_chain (n : Nat) (steps : List (RecvOutcome × (Nat → Bool))) :
    ∀ cur, List.Chain' failRcv (monitor_loop n cur steps).1 := by
  induction steps with
  | nil =>
    intro cur
    simp [monitor_loop]
  | cons s rest ih =>
    intro cur
    obtain ⟨o, probe⟩ := s
    cases o with
    | ok =>
      have heq : (monitor_loop n cur ((RecvOutcome.ok, probe) :: rest)).1
          = MonEvent.receive :: MonEvent.processTx :: (monitor_loop n cur rest).1 := rfl
      rw [heq]
      refine List.chain'_cons'.2 ⟨fun y _ => failRcv_of_ne _ _ (by simp), ?_⟩
      exact List.chain'_cons'.2 ⟨fun y _ => failRcv_of_ne _ _ (by simp), ih cur⟩
    | noData =>
      have heq : (monitor_loop n cur ((RecvOutcome.noData, probe) :: rest)).1
          = MonEvent.receive :: (monitor_loop n cur rest).1 := rfl
      rw [heq]
      exact List.chain'_cons'.2 ⟨fun y _ => failRcv_of_ne _ _ (by simp), ih cur⟩
    | err =>
      cases hfs : (failoverScan (List.range n) cur probe).2 with
      | some idx =>
        have heq : (monitor_loop n cur ((RecvOutcome.err, probe) :: rest)).1
            = MonEvent.receive :: MonEvent.failover :: (monitor_loop n idx rest).1 := by
          simp only [monitor_loop]
          rw [hfs]
        rw [heq]
        refine List.chain'_cons'.2 ⟨fun y _ => failRcv_of_ne _ _ (by simp), ?_⟩
        refine List.chain'_cons'.2 ⟨?_, ih idx⟩
        intro y hy
        rcases monitor_loop_head n rest idx with hnil | ⟨t, ht⟩
        · rw [hnil] at hy
          simp at hy
        · rw [ht] at hy
          simp at hy
          subst hy
          exact fun _ => rfl
      | none =>
        have heq : (monitor_loop n cur ((RecvOutcome.err, probe) :: rest)).1
            = [MonEvent.receive, MonEvent.failover] := by
          simp only [monitor_loop]
          rw [hfs]
        rw [heq]
        refine List.chain'_cons'.2 ⟨fun y _ => failRcv_of_ne _ _ (by simp), ?_⟩
        simp

/-- C9 counterexample: a concrete run of the monitoring loop in which a receive
error triggers a successful failover and the very next event is a receive, with
no intervening subscription — the trace is
`[subscribeTo "p", receive, failover, receive]`, refuting the claimed
re-subscription property. -/
theorem C9_counterexample :
    ¬ resubscribe_property (start_monitoring 2 ["p"] 0 stepsC9).1 ["p"] := by
  intro h
  have htr : (start_monitoring 2 ["p"] 0 stepsC9).1
      = [MonEvent.subscribeTo "p", MonEvent.receive, MonEvent.failover, MonEvent.receive] := by
    rfl
  rw [htr] at h
  obtain ⟨k, hk1, hk2, _⟩ := h 2 3 (by norm_num) (by norm_num) rfl rfl "p"
    (List.mem_singleton.2 rfl)
  omega

/-- C9 (amended): in the monitoring loop of `start_monitoring`, a receive error
triggers failover, but the loop then pulls the next transaction WITHOUT
re-subscribing: subscription events occur only in the pre-loop prefix (one per
watched program), the loop trace itself contains no subscription event, and any
event directly following a failover event is a receive. -/
theorem C9_no_resubscription_after_failover (nEndpoints : Nat) (programs : List String)
    (cur : Nat) (steps : List (RecvOutcome × (Nat → Bool))) :
    (start_monitoring nEndpoints programs cur steps).1.filter isSubscribeEvent
        = programs.map MonEvent.subscribeTo
    ∧ (∀ p, MonEvent.subscribeTo p ∉ (monitor_loop nEndpoints cur steps).1)
    ∧ List.Chain' failRcv (start_monitoring nEndpoints programs cur steps).1 := by
  have hloopsub := monitor_loop_no_subscribe nEndpoints steps cur
  have hstart : (start_monitoring nEndpoints programs cur steps).1
      = programs.map MonEvent.subscribeTo ++ (monitor_loop nEndpoints cur steps).1 := rfl
  refine ⟨?_, fun p => hloopsub p, ?_⟩
  · rw [hstart, List.filter_append]
    have h1 : (programs.map MonEvent.subscribeTo).filter isSubscribeEvent
        = programs.map MonEvent.subscribeTo := by
      refine List.filter_eq_self.2 ?_
      intro a ha
      obtain ⟨p, _, rfl⟩ := List.mem_map.1 ha
      rfl
    have h2 : ((monitor_loop nEndpoints cur steps).1).filter isSubscribeEvent = [] := by
      refine List.filter_eq_nil_iff.2 ?_
      intro e he hsub
      cases e with
      | subscribeTo p => exact hloopsub p he
      | receive => simp [isSubscribeEvent] at hsub
      | processTx => simp [isSubscribeEvent] at hsub
      | failover => simp [isSubscribeEvent] at hsub
    rw [h1, h2, List.append_nil]
  · rw [hstart]
    refine List.chain'_append.2
      ⟨chain_failRcv_subscribes programs, monitor_loop_chain nEndpoints steps cur, ?_⟩
    · intro x hx y _
      have hx' : x ∈ programs.map MonEvent.subscribeTo := List.mem_of_mem_getLast? hx
      obtain ⟨p, _, rfl⟩ := List.mem_map.1 hx'
      exact failRcv_of_ne _ _ (by simp)

theorem C9_no_resubscription_after_failover_witness :
    (start_monitoring 2 ["p"] 0 stepsC9).1.filter isSubscribeEvent
        = ["p"].map MonEvent.subscribeTo
    ∧ (∀ p, MonEvent.subscribeTo p ∉ (monitor_loop 2 0 stepsC9).1)
    ∧ List.Chain' failRcv (start_monitoring 2 ["p"] 0 stepsC9).1 :=
  C9_no_resubscription_after_failover 2 ["p"] 0 stepsC9

theorem insertionSort_filter_stable {α : Type} (r : α → α → Prop) [DecidableRel r]
    (p : α → Bool) (hp : ∀ a b, p a = true → p b = true → r a b) (l : List α) :
    (List.insertionSort r l).filter p = l.filter p := by
  have hpair : (l.filter p).Pairwise r := by
    apply List.pairwise_of_forall_mem_list
    intro a ha b hb
    exact hp a b (List.of_mem_filter ha) (List.of_mem_filter hb)
  have hsub : List.Sublist (l.filter p) (List.insertionSort r l) :=
    List.sublist_insertionSort hpair (List.filter_sublist l)
  have hid : (l.filter p).filter p = l.filter p := by
    simp [List.filter_filter]
  have hsub2 : List.Sublist (l.filter p) ((List.insertionSort r l).filter p) :=
    hid ▸ hsub.filter p
  have hlen : ((List.insertionSort r l).filter p).length = (l.filter p).length :=
    ((List.perm_insertionSort r l).filter p).length_eq
  exact (hsub2.eq_of_length hlen.symm).symm

/-- C8 counterexample: `get_active_whales` filters a token query by
`token_address in profile.tokens_held` — key presence — not by a nonzero
position: a profile whose `tokens_held` maps token "T" to 0 is returned by the
query for "T", contradicting the claim that exactly the profiles with a
NONZERO position in the token are returned. -/
theorem C8_counterexample :
    get_active_whales trackerZeroT (some "T") (1/2) = [profileZeroT]
    ∧ dictGet profileZeroT.tokens_held "T" = some 0 := by
  constructor
  · have hcond : activeWhaleFilter (some "T") (1/2) profileZeroT = true := by
      simp only [activeWhaleFilter, profileZeroT, dictContains, Bool.and_eq_true,
        decide_eq_true_eq]
      refine ⟨by norm_num, ?_⟩
      simp +decide
    unfold get_active_whales
    have hfil : (trackerZeroT.whale_profiles.map Prod.snd).filter
        (activeWhaleFilter (some "T") (1/2)) = [profileZeroT] := by
      show List.filter (activeWhaleFilter (some "T") (1/2)) [profileZeroT] = [profileZeroT]
      rw [List.filter_cons_of_pos hcond, List.filter_nil]
    rw [hfil]
    simp [List.insertionSort, List.orderedInsert]
  · simp [profileZeroT, dictGet]

/-- C8 (amended): `get_active_whales` returns exactly the profiles with
`activity_score ≥ min_activity_score` that, when a token filter is given, have
an entry for that token in `tokens_held` (key presence, regardless of the
position's value — the nonzero requirement fails, see the counterexample);
the result is sorted by `influence_rating` descending with ties broken by
insertion order (the tie class of every rating value keeps its filter order),
so repeated calls on the same state return the same list. -/
theorem C8_get_active_whales_spec (st : WhaleTrackerState) (token_address : Option String)
    (min_activity_score : ℚ) :
    (get_active_whales st token_address min_activity_score).Perm
        ((st.whale_profiles.map Prod.snd).filter
          (activeWhaleFilter token_address min_activity_score))
    ∧ List.Sorted byInfluenceDesc (get_active_whales st token_address min_activity_score)
    ∧ ∀ v : ℚ, (get_active_whales st token_address min_activity_score).filter
          (fun q => q.influence_rating = v)
        = ((st.whale_profiles.map Prod.snd).filter
            (activeWhaleFilter token_address min_activity_score)).filter
          (fun q => q.influence_rating = v) := by
  refine ⟨List.perm_insertionSort _ _, List.sorted_insertionSort _ _, fun v => ?_⟩
  refine insertionSort_filter_stable byInfluenceDesc _ (fun a b ha hb => ?_) _
  have h1 : a.influence_rating = v := of_decide_eq_true ha
  have h2 : b.influence_rating = v := of_decide_eq_true hb
  exact le_of_eq (h2.trans h1.symm)

theorem C8_get_active_whales_spec_witness :
    (get_active_whales trackerZeroT (some "T") (1/2)).Perm
        ((trackerZeroT.whale_profiles.map Prod.snd).filter (activeWhaleFilter (some "T") (1/2)))
    ∧ List.Sorted byInfluenceDesc (get_active_whales trackerZeroT (some "T") (1/2))
    ∧ (get_active_whales trackerZeroT (some "T") (1/2)).filter
          (fun q => q.influence_rating = 3)
        = ((trackerZeroT.whale_profiles.map Prod.snd).filter
            (activeWhaleFilter (some "T") (1/2))).filter
          (fun q => q.influence_rating = 3) := by
  obtain ⟨h1, h2, h3⟩ := C8_get_active_whales_spec trackerZeroT (some "T") (1/2)
  exact ⟨h1, h2, h3 3⟩
